import Mathlib

/-!
Verification of the grid-connectivity core of sbpy (src/sbpy/grid2d.py).

The module is shallowly embedded: 2D numpy arrays become lists of rows
(row index = x-index, column index = y-index), node coordinates become
rationals (the source compares coordinates with exact equality, and every
coordinate appearing in the scenarios is exactly representable), Python
dicts become association lists with overwrite-on-insert semantics, and
the asserts in the source become an explicit error monad.
-/

namespace Grid2d

/-- A 2D numpy array of coordinates: a list of rows, entry at row i and
column j is the value at grid node with x-index i and y-index j. -/
abbrev Mat := List (List ℚ)

/-- A block, as in the source: a pair of coordinate matrices (X, Y). -/
abbrev Block := Mat × Mat

/-- The numpy shape of a 2D array: (number of rows, number of columns). -/
def shape (M : Mat) : Nat × Nat := (M.length, (M.headD []).length)

/-- The side labels used throughout the source, in the order the source
iterates them. -/
def sidesList : List String := ["s", "e", "n", "w"]

/-- Embeds get_function_boundary from grid2d.py: the boundary of a grid
function F, with West = F[0,:], East = F[-1,:], South = F[:,0],
North = F[:,-1]. The final branch is unreachable in the source because the
function asserts that side is one of the four labels. -/
def getFunctionBoundary {α : Type} [Inhabited α] (F : List (List α)) (side : String) : List α :=
  if side = "w" then F.headD []
  else if side = "e" then F.getLastD []
  else if side = "s" then F.map (fun row => row.headD default)
  else if side = "n" then F.map (fun row => row.getLastD default)
  else []

/-- Embeds get_corners from grid2d.py: the four corners of a block,
starting at (X[0,0], Y[0,0]) and continuing counter-clockwise. -/
def getCorners (X Y : Mat) : List (ℚ × ℚ) :=
  [ ((X.headD []).headD 0,       (Y.headD []).headD 0),
    ((X.getLastD []).headD 0,    (Y.getLastD []).headD 0),
    ((X.getLastD []).getLastD 0, (Y.getLastD []).getLastD 0),
    ((X.headD []).getLastD 0,    (Y.headD []).getLastD 0) ]

/-- Lexicographic comparison of 2D points, i.e. the row order used by
np.unique(..., axis=0) on an array of points. -/
def ptLe (p q : ℚ × ℚ) : Bool :=
  if p.1 = q.1 then decide (p.2 ≤ q.2) else decide (p.1 ≤ q.1)

/-- Lexicographic comparison of index pairs, i.e. the row order used by
np.unique(..., axis=0) on an array of edges. -/
def pairLe (p q : Nat × Nat) : Bool :=
  if p.1 = q.1 then decide (p.2 ≤ q.2) else decide (p.1 ≤ q.1)

/-- Insert an element into an already sorted list. -/
def insertSortedBy {α : Type} (le : α → α → Bool) (x : α) : List α → List α
  | [] => [x]
  | y :: ys => if le x y then x :: y :: ys else y :: insertSortedBy le x ys

/-- Insertion sort with respect to a boolean comparison. -/
def sortBy {α : Type} (le : α → α → Bool) (l : List α) : List α :=
  l.foldr (insertSortedBy le) []

/-- Remove adjacent duplicates from a list; on a sorted list this removes
all duplicates. -/
def dedupSorted {α : Type} [DecidableEq α] : List α → List α
  | [] => []
  | [x] => [x]
  | x :: y :: rest => if x = y then dedupSorted (y :: rest) else x :: dedupSorted (y :: rest)

/-- Embeds np.unique(..., axis=0): sort the rows lexicographically and
drop duplicates. -/
def uniqueSorted {α : Type} [DecidableEq α] (le : α → α → Bool) (l : List α) : List α :=
  dedupSorted (sortBy le l)

/-- Index of the first occurrence of x, embedding
np.argwhere(np.all(x == l, axis=1)).item() on a duplicate-free list. -/
def idxOf {α : Type} [DecidableEq α] (x : α) : List α → Nat
  | [] => 0
  | y :: ys => if y = x then 0 else idxOf x ys + 1

/-- The canonical (ascending) form of an edge between two corner indices,
embedding sorted([a, b]). -/
def sortPair (a b : Nat) : Nat × Nat := if a ≤ b then (a, b) else (b, a)

/-- The per-block dict mapping each side label to its global edge index,
embedding one entry of face_edges. -/
structure FaceEdges where
  s : Nat
  e : Nat
  n : Nat
  w : Nat
deriving DecidableEq, Inhabited

/-- Dict access face_edges[...][side]; only ever applied to the four side
labels in the source. -/
def FaceEdges.get (fe : FaceEdges) (side : String) : Nat :=
  if side = "s" then fe.s
  else if side = "e" then fe.e
  else if side = "n" then fe.n
  else if side = "w" then fe.w
  else 0

/-- The values view of a face_edges dict, in insertion order s, e, n, w. -/
def faceEdgeValues (fe : FaceEdges) : List Nat := [fe.s, fe.e, fe.n, fe.w]

/-- Overwrite-or-append insertion, embedding Python dict assignment
d[k] = v (insertion order is preserved, an existing key is overwritten in
place, a new key is appended). -/
def dictInsert {β : Type} : List (String × β) → String → β → List (String × β)
  | [], k, v => [(k, v)]
  | (k', v') :: rest, k, v =>
      if k' = k then (k, v) :: rest else (k', v') :: dictInsert rest k v

/-- Dict lookup d[k], returning none when the key is absent. -/
def lookupKey {β : Type} : List (String × β) → String → Option β
  | [], _ => none
  | (k, v) :: rest, k' => if k' = k then some v else lookupKey rest k'

/-- The per-block interface dict: side label to (neighbor index, neighbor
side). -/
abbrev IfaceDict := List (String × (Nat × String))

/-- One matching (block, side, block, side) quadruple found by the
interface search. -/
structure Event where
  i : Nat
  s1 : String
  j : Nat
  s2 : String
deriving DecidableEq

/-- The two dict writes the source performs for one matching pair:
interfaces[i][s1] = (j, s2) and interfaces[j][s2] = (i, s1). -/
def applyEvent (acc : List IfaceDict) (ev : Event) : List IfaceDict :=
  let acc1 := acc.set ev.i (dictInsert (acc.getD ev.i []) ev.s1 (ev.j, ev.s2))
  acc1.set ev.j (dictInsert (acc1.getD ev.j []) ev.s2 (ev.i, ev.s1))

/-- The index pairs visited by itertools.combinations(enumerate(...), 2):
all (i, j) with i < j < n, in lexicographic order. -/
def allPairs (n : Nat) : List (Nat × Nat) :=
  (List.range n).flatMap (fun i => ((List.range n).filter (fun j => i < j)).map (fun j => (i, j)))

/-- The side pairs visited by itertools.product(sides, repeat=2). -/
def sidePairs : List (String × String) :=
  sidesList.flatMap (fun a => sidesList.map (fun b => (a, b)))

/-- Embeds the interface-detection double loop of Multiblock.__init__:
for every unordered block pair and every side pair, if the edge indices
agree, record the bidirectional interface entry. -/
def findInterfaces (fes : List FaceEdges) : List IfaceDict :=
  (allPairs fes.length).foldl
    (fun acc ij =>
      sidePairs.foldl
        (fun acc2 ss =>
          if (fes.getD ij.1 default).get ss.1 = (fes.getD ij.2 default).get ss.2 then
            applyEvent acc2 ⟨ij.1, ss.1, ij.2, ss.2⟩
          else acc2)
        acc)
    (List.replicate fes.length [])

/-- The matching quadruple produced by one (block pair, side pair) probe,
when the edge indices agree. -/
def toEvent (fes : List FaceEdges) (ij : Nat × Nat) (ss : String × String) : Option Event :=
  if (fes.getD ij.1 default).get ss.1 = (fes.getD ij.2 default).get ss.2 then
    some ⟨ij.1, ss.1, ij.2, ss.2⟩
  else none

/-- The list of all matching quadruples, in the order the source visits
them. -/
def events (fes : List FaceEdges) : List Event :=
  (allPairs fes.length).flatMap (fun ij => sidePairs.filterMap (toEvent fes ij))

/-- Embeds the non-interface classification of Multiblock.__init__: a side
of block i is a non-interface when its edge index occurs in no other
block's face_edges values. -/
def findNonInterfaces (fes : List FaceEdges) : List (List String) :=
  (List.range fes.length).map (fun i =>
    let other := ((List.range fes.length).filter (fun j => j ≠ i)).flatMap
      (fun j => faceEdgeValues (fes.getD j default))
    sidesList.filter (fun sd => decide ((fes.getD i default).get sd ∉ other)))

/-- Embeds the Multiblock object after construction. -/
structure Multiblock where
  blocks : List Block
  numBlocks : Nat
  shapes : List (Nat × Nat)
  corners : List (ℚ × ℚ)
  faces : List (List Nat)
  edges : List (Nat × Nat)
  faceEdges : List FaceEdges
  interfaces : List IfaceDict
  nonInterfaces : List (List String)
deriving DecidableEq

/-- The errors the constructor and the queries can raise. Both asserts in
the source raise a bare AssertionError carrying no data; the two
constructors record the raise site (the failed assert statement), which is
all a traceback identifies. -/
inductive MBError where
  | shapeAssertion
  | interfaceAssertion
deriving DecidableEq

/-- Embeds the shape assert loop at the top of Multiblock.__init__. -/
def checkShapes : List Block → Except MBError Unit
  | [] => .ok ()
  | (X, Y) :: rest => if shape X = shape Y then checkShapes rest else .error .shapeAssertion

/-- The connectivity construction performed by Multiblock.__init__ after
the shape asserts: unique corners, faces, unique edges, face_edges,
interfaces and non_interfaces. -/
def Multiblock.build (blocks : List Block) : Multiblock :=
  let corners := uniqueSorted ptLe (blocks.flatMap (fun b => getCorners b.1 b.2))
  let faces := blocks.map (fun b => (getCorners b.1 b.2).map (fun c => idxOf c corners))
  let edges := uniqueSorted pairLe (faces.flatMap (fun face =>
    (List.range 4).map (fun k => sortPair (face.getD k 0) (face.getD ((k + 1) % 4) 0))))
  let faceEdges := faces.map (fun face =>
    { s := idxOf (sortPair (face.getD 0 0) (face.getD 1 0)) edges
      e := idxOf (sortPair (face.getD 1 0) (face.getD 2 0)) edges
      n := idxOf (sortPair (face.getD 2 0) (face.getD 3 0)) edges
      w := idxOf (sortPair (face.getD 3 0) (face.getD 0 0)) edges })
  { blocks := blocks
    numBlocks := blocks.length
    shapes := blocks.map (fun b => shape b.1)
    corners := corners
    faces := faces
    edges := edges
    faceEdges := faceEdges
    interfaces := findInterfaces faceEdges
    nonInterfaces := findNonInterfaces faceEdges }

/-- Embeds Multiblock.__init__ as a whole: the shape asserts, then the
connectivity construction. -/
def Multiblock.init (blocks : List Block) : Except MBError Multiblock :=
  match checkShapes blocks with
  | .error err => .error err
  | .ok _ => .ok (Multiblock.build blocks)

/-- Embeds Multiblock.is_interface: a membership test of side among the
keys of interfaces[block_idx], performing no validation of the side
string. -/
def Multiblock.isInterface (mb : Multiblock) (blockIdx : Nat) (side : String) : Bool :=
  (lookupKey (mb.interfaces.getD blockIdx []) side).isSome

/-- Embeds Multiblock.evaluate_function. -/
def Multiblock.evaluateFunction (mb : Multiblock) (f : Mat → Mat → Mat) : List Mat :=
  mb.blocks.map (fun b => f b.1 b.2)

/-- Embeds Multiblock.get_shapes. -/
def Multiblock.getShapes (mb : Multiblock) : List (Nat × Nat) := mb.shapes

/-- The flip table of get_neighbor_boundary, exactly the list literal of
the source. -/
def flipList : List (String × String) :=
  [("s", "e"), ("s", "s"),
   ("e", "s"), ("e", "e"),
   ("n", "w"), ("n", "n"),
   ("w", "n"), ("w", "w")]

/-- Embeds Multiblock.get_neighbor_boundary: assert the interface is
registered, look up the neighbor, extract its boundary, and reverse it
exactly when (neighbor_side, side) is in the flip table. -/
def Multiblock.getNeighborBoundary {α : Type} [Inhabited α] (mb : Multiblock)
    (F : List (List α)) (blockIdx : Nat) (side : String) : Except MBError (List α) :=
  if mb.isInterface blockIdx side then
    match lookupKey (mb.interfaces.getD blockIdx []) side with
    | some (_, neighborSide) =>
        if (neighborSide, side) ∈ flipList then
          .ok (getFunctionBoundary F neighborSide).reverse
        else
          .ok (getFunctionBoundary F neighborSide)
    | none => .error .interfaceAssertion
  else .error .interfaceAssertion

/-- The reorientation step of get_neighbor_boundary in isolation: the
conditional reversal applied to a fetched 1D boundary array, keyed by
(neighbor_side, side). -/
def reorient {α : Type} (neighborSide side : String) (arr : List α) : List α :=
  if (neighborSide, side) ∈ flipList then arr.reverse else arr

/-- The (neighbor index, neighbor side) value, if any, that one matching
quadruple writes into a given block's dict at a given side key. When both
writes of the quadruple target the same slot, the second write wins, as in
the source. -/
def writesTo (ev : Event) (b : Nat) (sd : String) : Option (Nat × String) :=
  if ev.j = b ∧ ev.s2 = sd then some (ev.i, ev.s1)
  else if ev.i = b ∧ ev.s1 = sd then some (ev.j, ev.s2)
  else none

/-- The value written last into a given slot by a list of matching
quadruples, if any; later quadruples in the list overwrite earlier
ones. -/
def lastWrite : List Event → Nat → String → Option (Nat × String)
  | [], _, _ => none
  | ev :: rest, b, sd =>
      match lastWrite rest b sd with
      | some v => some v
      | none => writesTo ev b sd

/-- The list of all (block, side) slots whose face_edges value is a given
edge index; the validity hypothesis of the symmetry claim bounds its
length. -/
def edgeOccurrences (fes : List FaceEdges) (E : Nat) : List (Nat × String) :=
  (List.range fes.length).flatMap (fun b =>
    sidesList.filterMap (fun sd =>
      if (fes.getD b default).get sd = E then some (b, sd) else none))

/-- The index of the first block whose two coordinate arrays differ in
shape, if any. -/
def firstMismatch (blocks : List Block) : Option Nat :=
  blocks.findIdx? (fun b => decide (shape b.1 ≠ shape b.2))

/-- The two-block scenario of the spec: block0 on x in [0,1], y in [0,1]
and block1 on x in [1,2], y in [0,1], each with 3-by-3 nodes, sharing the
edge x = 1. -/
def blocksC2 : List Block :=
  [ ( [[0, 0, 0], [1/2, 1/2, 1/2], [1, 1, 1]],
      [[0, 1/2, 1], [0, 1/2, 1], [0, 1/2, 1]] ),
    ( [[1, 1, 1], [3/2, 3/2, 3/2], [2, 2, 2]],
      [[0, 1/2, 1], [0, 1/2, 1], [0, 1/2, 1]] ) ]

/-- The connectivity object built from the two-block scenario. -/
def mbC2 : Multiblock := Multiblock.build blocksC2

/-- A grid function on block1 of the two-block scenario whose west
boundary values are 10, 11, 12 in south-to-north order. -/
def F1C2 : List (List ℚ) := [[10, 11, 12], [20, 21, 22], [30, 31, 32]]

/-- A non-manifold block list: three 2-by-2 blocks on x in [0,1], x in
[1,2] and again x in [1,2] (all with y in [0,1]), so that the edge x = 1
is claimed by the three occurrences (0, e), (1, w) and (2, w). -/
def blocksC5 : List Block :=
  [ ( [[0, 0], [1, 1]], [[0, 1], [0, 1]] ),
    ( [[1, 1], [2, 2]], [[0, 1], [0, 1]] ),
    ( [[1, 1], [2, 2]], [[0, 1], [0, 1]] ) ]

/-- The connectivity object the source silently builds from the
non-manifold block list. -/
def mbC5 : Multiblock := Multiblock.build blocksC5

/-- A single block whose X arrays differ in shape from its Y array, the
mismatch being at block index 0. -/
def blocksC7a : List Block := [([[0]], [[0], [0]])]

/-- A block list whose first block is well-formed and whose second block
has mismatched array shapes, the mismatch being at block index 1. -/
def blocksC7b : List Block :=
  [ ( [[0, 0], [1, 1]], [[0, 1], [0, 1]] ),
    ( [[0]], [[0], [0]] ) ]

/-- A single periodically wrapped 2-by-2 block: its west side (corners
(0,0) and (0,1)) coincides coordinate-wise with its east side. -/
def blocksC8 : List Block := [([[0, 0], [0, 0]], [[0, 1], [0, 1]])]

/-- The connectivity object built from the wrapped single block. -/
def mbC8 : Multiblock := Multiblock.build blocksC8

theorem lookupKey_dictInsert {β : Type} (d : List (String × β)) (k : String) (v : β)
    (k' : String) :
    lookupKey (dictInsert d k v) k' = if k' = k then some v else lookupKey d k' := by
  induction d with
  | nil => simp [dictInsert, lookupKey]
  | cons p rest ih =>
    obtain ⟨k₀, v₀⟩ := p
    by_cases h0 : k₀ = k
    · subst h0
      by_cases h1 : k' = k₀ <;> simp [dictInsert, lookupKey, h1]
    · by_cases h1 : k' = k₀
      · subst h1
        simp [dictInsert, lookupKey, h0, Ne.symm h0]
      · simp [dictInsert, lookupKey, h0, h1, ih]

theorem mem_dictInsert {β : Type} (k : String) (v : β) (a : String × β) :
    ∀ d : List (String × β), a ∈ dictInsert d k v → a ∈ d ∨ a = (k, v) := by
  intro d
  induction d with
  | nil =>
    intro h
    simpa [dictInsert] using h
  | cons p rest ih =>
    obtain ⟨k₀, v₀⟩ := p
    intro h
    by_cases h0 : k₀ = k
    · simp only [dictInsert, if_pos h0, List.mem_cons] at h
      rcases h with h | h
      · exact Or.inr h
      · exact Or.inl (List.mem_cons_of_mem _ h)
    · simp only [dictInsert, if_neg h0, List.mem_cons] at h
      rcases h with h | h
      · exact Or.inl (by simp [h])
      · rcases ih h with h' | h'
        · exact Or.inl (List.mem_cons_of_mem _ h')
        · exact Or.inr h'

theorem keys_nodup_dictInsert {β : Type} (k : String) (v : β) :
    ∀ d : List (String × β), (d.map Prod.fst).Nodup →
      ((dictInsert d k v).map Prod.fst).Nodup := by
  intro d
  induction d with
  | nil =>
    intro
    simp [dictInsert]
  | cons p rest ih =>
    obtain ⟨k₀, v₀⟩ := p
    intro h
    simp only [List.map_cons, List.nodup_cons] at h
    by_cases h0 : k₀ = k
    · subst h0
      simpa [dictInsert] using h
    · simp only [dictInsert, if_neg h0, List.map_cons, List.nodup_cons]
      refine ⟨?_, ih h.2⟩
      intro hmem
      rcases List.mem_map.1 hmem with ⟨a, ha, hka⟩
      rcases mem_dictInsert k v a rest ha with h' | h'
      · exact h.1 (List.mem_map.2 ⟨a, h', hka⟩)
      · subst h'
        simp only at hka
        exact h0 hka.symm

theorem length_applyEvent (acc : List IfaceDict) (ev : Event) :
    (applyEvent acc ev).length = acc.length := by
  simp [applyEvent, List.length_set]

theorem getD_set_self {α : Type} (l : List α) (i : Nat) (x d : α) (h : i < l.length) :
    (l.set i x).getD i d = x := by
  simp [List.getD_eq_getElem?_getD, List.getElem?_set, h]

theorem getD_set_ne {α : Type} (l : List α) (i : Nat) (x d : α) (b : Nat) (h : i ≠ b) :
    (l.set i x).getD b d = l.getD b d := by
  simp [List.getD_eq_getElem?_getD, List.getElem?_set, h]

theorem applyEvent_lookup (acc : List IfaceDict) (ev : Event)
    (hi : ev.i < acc.length) (hj : ev.j < acc.length) (b : Nat) (sd : String) :
    lookupKey ((applyEvent acc ev).getD b []) sd =
      match writesTo ev b sd with
      | some v => some v
      | none => lookupKey (acc.getD b []) sd := by
  obtain ⟨i, s1, j, s2⟩ := ev
  simp only [applyEvent, writesTo] at hi hj ⊢
  by_cases hjb : j = b
  · subst hjb
    rw [getD_set_self _ _ _ _ (by simpa [List.length_set] using hj)]
    rw [lookupKey_dictInsert]
    by_cases hs2 : sd = s2
    · subst hs2
      simp
    · rw [if_neg hs2, if_neg (fun hc => hs2 hc.2.symm)]
      by_cases hij : i = j
      · subst hij
        rw [getD_set_self _ _ _ _ hi, lookupKey_dictInsert]
        by_cases hs1 : sd = s1
        · subst hs1
          simp
        · rw [if_neg hs1, if_neg (fun hc => hs1 hc.2.symm)]
      · rw [getD_set_ne _ _ _ _ _ hij, if_neg (fun hc => hij hc.1)]
  · rw [getD_set_ne _ _ _ _ _ hjb, if_neg (fun hc => hjb hc.1)]
    by_cases hib : i = b
    · subst hib
      rw [getD_set_self _ _ _ _ hi, lookupKey_dictInsert]
      by_cases hs1 : sd = s1
      · subst hs1
        simp
      · rw [if_neg hs1, if_neg (fun hc => hs1 hc.2.symm)]
    · rw [getD_set_ne _ _ _ _ _ hib, if_neg (fun hc => hib hc.1)]

theorem foldl_applyEvent_lookup (evs : List Event) (acc : List IfaceDict)
    (h : ∀ ev ∈ evs, ev.i < acc.length ∧ ev.j < acc.length) (b : Nat) (sd : String) :
    lookupKey ((evs.foldl applyEvent acc).getD b []) sd =
      match lastWrite evs b sd with
      | some v => some v
      | none => lookupKey (acc.getD b []) sd := by
  induction evs generalizing acc with
  | nil => rfl
  | cons ev rest ih =>
    have h0 := h ev (List.mem_cons_self _ _)
    have h' : ∀ e ∈ rest, e.i < (applyEvent acc ev).length ∧ e.j < (applyEvent acc ev).length := by
      intro e he
      rw [length_applyEvent]
      exact h e (List.mem_cons_of_mem _ he)
    simp only [List.foldl_cons, lastWrite]
    rw [ih _ h']
    cases hlw : lastWrite rest b sd with
    | some v => rfl
    | none =>
      simp only []
      rw [applyEvent_lookup acc ev h0.1 h0.2 b sd]

theorem foldl_flatMap {α β γ : Type} (g : γ → List α) (f : β → α → β) (l : List γ)
    (init : β) :
    (l.flatMap g).foldl f init = l.foldl (fun acc x => (g x).foldl f acc) init := by
  induction l generalizing init with
  | nil => rfl
  | cons x xs ih => simp [List.flatMap_cons, List.foldl_append, ih]

theorem foldl_filterMap {α β γ : Type} (g : γ → Option α) (f : β → α → β) (l : List γ)
    (init : β) :
    (l.filterMap g).foldl f init =
      l.foldl (fun acc x => match g x with | some a => f acc a | none => acc) init := by
  induction l generalizing init with
  | nil => rfl
  | cons x xs ih =>
    cases hgx : g x <;> simp [List.filterMap_cons, hgx, ih]

theorem findInterfaces_eq (fes : List FaceEdges) :
    findInterfaces fes = (events fes).foldl applyEvent (List.replicate fes.length []) := by
  unfold findInterfaces events
  rw [foldl_flatMap]
  congr 1
  funext acc ij
  rw [foldl_filterMap]
  congr 1
  funext acc2 ss
  unfold toEvent
  by_cases hc : (fes.getD ij.1 default).get ss.1 = (fes.getD ij.2 default).get ss.2
  · rw [if_pos hc, if_pos hc]
  · rw [if_neg hc, if_neg hc]

theorem getD_replicate_nil {α : Type} (n b : Nat) :
    (List.replicate n ([] : List α)).getD b [] = [] := by
  rw [List.getD_eq_getElem?_getD, List.getElem?_replicate]
  by_cases h : b < n <;> simp [h]

theorem mem_allPairs {n i j : Nat} : (i, j) ∈ allPairs n ↔ i < j ∧ j < n := by
  simp only [allPairs, List.mem_flatMap, List.mem_map, List.mem_filter, List.mem_range,
    decide_eq_true_eq]
  constructor
  · rintro ⟨a, ha, b, hb, heq⟩
    rw [Prod.mk.injEq] at heq
    obtain ⟨rfl, rfl⟩ := heq
    exact ⟨hb.2, hb.1⟩
  · rintro ⟨hij, hjn⟩
    exact ⟨i, by omega, j, ⟨hjn, hij⟩, rfl⟩

theorem mem_sidePairs {p : String × String} :
    p ∈ sidePairs ↔ p.1 ∈ sidesList ∧ p.2 ∈ sidesList := by
  obtain ⟨a, b⟩ := p
  simp only [sidePairs, List.mem_flatMap, List.mem_map]
  constructor
  · rintro ⟨x, hx, y, hy, heq⟩
    obtain ⟨rfl, rfl⟩ := Prod.mk.injEq .. ▸ heq
    exact ⟨hx, hy⟩
  · rintro ⟨ha, hb⟩
    exact ⟨a, ha, b, hb, rfl⟩

theorem mem_events {fes : List FaceEdges} {ev : Event} :
    ev ∈ events fes ↔
      ev.i < ev.j ∧ ev.j < fes.length ∧ ev.s1 ∈ sidesList ∧ ev.s2 ∈ sidesList ∧
        (fes.getD ev.i default).get ev.s1 = (fes.getD ev.j default).get ev.s2 := by
  simp only [events, List.mem_flatMap, List.mem_filterMap]
  constructor
  · rintro ⟨⟨i', j'⟩, hij, ⟨t1, t2⟩, hss, hto⟩
    unfold toEvent at hto
    split at hto
    · rename_i hmatch
      obtain rfl : ev = ⟨i', t1, j', t2⟩ := by injection hto with h; exact h.symm
      obtain ⟨h1, h2⟩ := mem_allPairs.1 hij
      obtain ⟨h3, h4⟩ := mem_sidePairs.1 hss
      exact ⟨h1, h2, h3, h4, hmatch⟩
    · exact absurd hto (by simp)
  · rintro ⟨h1, h2, h3, h4, h5⟩
    refine ⟨(ev.i, ev.j), mem_allPairs.2 ⟨h1, h2⟩, (ev.s1, ev.s2),
      mem_sidePairs.2 ⟨h3, h4⟩, ?_⟩
    unfold toEvent
    rw [if_pos h5]

theorem lookup_findInterfaces (fes : List FaceEdges) (b : Nat) (sd : String) :
    lookupKey ((findInterfaces fes).getD b []) sd = lastWrite (events fes) b sd := by
  rw [findInterfaces_eq]
  rw [foldl_applyEvent_lookup]
  · rw [getD_replicate_nil]
    cases lastWrite (events fes) b sd <;> simp [lookupKey]
  · intro ev hev
    have h := mem_events.1 hev
    simp only [List.length_replicate]
    omega

theorem lastWrite_eq_none_iff {evs : List Event} {b : Nat} {sd : String} :
    lastWrite evs b sd = none ↔ ∀ ev ∈ evs, writesTo ev b sd = none := by
  induction evs with
  | nil => simp [lastWrite]
  | cons ev rest ih =>
    simp only [lastWrite]
    cases hr : lastWrite rest b sd with
    | some v =>
      simp only []
      constructor
      · intro h
        exact absurd h (by simp)
      · intro h
        rw [ih.2 (fun e he => h e (List.mem_cons_of_mem _ he))] at hr
        exact absurd hr (by simp)
    | none =>
      simp only []
      constructor
      · intro h e he
        rcases List.mem_cons.1 he with rfl | he'
        · exact h
        · exact ih.1 hr e he'
      · intro h
        exact h ev (List.mem_cons_self _ _)

theorem exists_of_lastWrite_eq_some {evs : List Event} {b : Nat} {sd : String}
    {v : Nat × String} (h : lastWrite evs b sd = some v) :
    ∃ ev ∈ evs, writesTo ev b sd = some v := by
  induction evs with
  | nil => exact absurd h (by simp [lastWrite])
  | cons ev rest ih =>
    simp only [lastWrite] at h
    cases hr : lastWrite rest b sd with
    | some u =>
      rw [hr] at h
      simp only [Option.some.injEq] at h
      subst h
      obtain ⟨e, he, hw⟩ := ih hr
      exact ⟨e, List.mem_cons_of_mem _ he, hw⟩
    | none =>
      rw [hr] at h
      exact ⟨ev, List.mem_cons_self _ _, h⟩

theorem lastWrite_isSome_of_mem {evs : List Event} {b : Nat} {sd : String}
    {ev : Event} {v : Nat × String} (hmem : ev ∈ evs) (hw : writesTo ev b sd = some v) :
    (lastWrite evs b sd).isSome = true := by
  induction evs with
  | nil => exact absurd hmem (by simp)
  | cons e rest ih =>
    simp only [lastWrite]
    cases hr : lastWrite rest b sd with
    | some u => simp
    | none =>
      rcases List.mem_cons.1 hmem with rfl | hmem'
      · simp [hw]
      · rw [lastWrite_eq_none_iff.1 hr ev hmem'] at hw
        exact absurd hw (by simp)

theorem lastWrite_eq_of_all {evs : List Event} {b : Nat} {sd : String}
    {ev₀ : Event} {v : Nat × String} (hmem : ev₀ ∈ evs)
    (h0 : writesTo ev₀ b sd = some v)
    (hall : ∀ ev ∈ evs, ∀ u, writesTo ev b sd = some u → u = v) :
    lastWrite evs b sd = some v := by
  cases hlw : lastWrite evs b sd with
  | some u =>
    obtain ⟨e, he, hw⟩ := exists_of_lastWrite_eq_some hlw
    rw [hall e he u hw]
  | none =>
    rw [lastWrite_eq_none_iff.1 hlw ev₀ hmem] at h0
    exact absurd h0 (by simp)

theorem foldl_applyEvent_preserves {P : List IfaceDict → Prop} (evs : List Event)
    (h : ∀ acc ev, ev ∈ evs → P acc → P (applyEvent acc ev)) :
    ∀ acc, P acc → P (evs.foldl applyEvent acc) := by
  induction evs with
  | nil =>
    intro acc hP
    exact hP
  | cons ev rest ih =>
    intro acc hP
    exact ih (fun a e he hPa => h a e (List.mem_cons_of_mem _ he) hPa) _
      (h acc ev (List.mem_cons_self _ _) hP)

theorem getD_nil_mem_or_eq {α : Type} (l : List (List α)) (b : Nat) :
    l.getD b [] ∈ l ∨ l.getD b [] = [] := by
  rw [List.getD_eq_getElem?_getD]
  cases h : l[b]? with
  | some x => exact Or.inl (by simpa using List.mem_iff_getElem?.2 ⟨b, h⟩)
  | none => simp

theorem applyEvent_all_keys_nodup {acc : List IfaceDict} {ev : Event}
    (hP : ∀ d ∈ acc, (d.map Prod.fst).Nodup) :
    ∀ d ∈ applyEvent acc ev, (d.map Prod.fst).Nodup := by
  have hbase : ∀ b, ((acc.getD b []).map Prod.fst).Nodup := by
    intro b
    rcases getD_nil_mem_or_eq acc b with h | h
    · exact hP _ h
    · rw [h]
      simp
  have hacc1 : ∀ d ∈ acc.set ev.i (dictInsert (acc.getD ev.i []) ev.s1 (ev.j, ev.s2)),
      (d.map Prod.fst).Nodup := by
    intro d hd
    rcases List.mem_or_eq_of_mem_set hd with h | rfl
    · exact hP d h
    · exact keys_nodup_dictInsert _ _ _ (hbase ev.i)
  intro d hd
  unfold applyEvent at hd
  rcases List.mem_or_eq_of_mem_set hd with h | rfl
  · exact hacc1 d h
  · apply keys_nodup_dictInsert
    rcases getD_nil_mem_or_eq
      (acc.set ev.i (dictInsert (acc.getD ev.i []) ev.s1 (ev.j, ev.s2))) ev.j with h | h
    · exact hacc1 _ h
    · rw [h]
      simp

theorem findInterfaces_keys_nodup (fes : List FaceEdges) :
    ∀ d ∈ findInterfaces fes, (d.map Prod.fst).Nodup := by
  rw [findInterfaces_eq]
  refine foldl_applyEvent_preserves (P := fun acc => ∀ d ∈ acc, (d.map Prod.fst).Nodup)
    (events fes) (fun acc ev _ hP => applyEvent_all_keys_nodup hP) _ ?_
  intro d hd
  rw [List.eq_of_mem_replicate hd]
  simp

theorem applyEvent_all_keys_sides {acc : List IfaceDict} {ev : Event}
    (hs1 : ev.s1 ∈ sidesList) (hs2 : ev.s2 ∈ sidesList)
    (hP : ∀ d ∈ acc, ∀ kv ∈ d, kv.1 ∈ sidesList) :
    ∀ d ∈ applyEvent acc ev, ∀ kv ∈ d, kv.1 ∈ sidesList := by
  have hbase : ∀ b, ∀ kv ∈ acc.getD b [], kv.1 ∈ sidesList := by
    intro b kv hkv
    rcases getD_nil_mem_or_eq acc b with h | h
    · exact hP _ h kv hkv
    · rw [h] at hkv
      exact absurd hkv (by simp)
  have hacc1 : ∀ d ∈ acc.set ev.i (dictInsert (acc.getD ev.i []) ev.s1 (ev.j, ev.s2)),
      ∀ kv ∈ d, kv.1 ∈ sidesList := by
    intro d hd kv hkv
    rcases List.mem_or_eq_of_mem_set hd with h | rfl
    · exact hP d h kv hkv
    · rcases mem_dictInsert _ _ _ _ hkv with h' | rfl
      · exact hbase ev.i kv h'
      · exact hs1
  intro d hd kv hkv
  unfold applyEvent at hd
  rcases List.mem_or_eq_of_mem_set hd with h | rfl
  · exact hacc1 d h kv hkv
  · rcases mem_dictInsert _ _ _ _ hkv with h' | rfl
    · rcases getD_nil_mem_or_eq
        (acc.set ev.i (dictInsert (acc.getD ev.i []) ev.s1 (ev.j, ev.s2))) ev.j with h | h
      · exact hacc1 _ h kv h'
      · rw [h] at h'
        exact absurd h' (by simp)
    · exact hs2

theorem findInterfaces_keys_sides (fes : List FaceEdges) :
    ∀ d ∈ findInterfaces fes, ∀ kv ∈ d, kv.1 ∈ sidesList := by
  rw [findInterfaces_eq]
  refine foldl_applyEvent_preserves
    (P := fun acc => ∀ d ∈ acc, ∀ kv ∈ d, kv.1 ∈ sidesList)
    (events fes) (fun acc ev hev hP => ?_) _ ?_
  · have h := mem_events.1 hev
    exact applyEvent_all_keys_sides h.2.2.1 h.2.2.2.1 hP
  · intro d hd
    rw [List.eq_of_mem_replicate hd]
    simp

theorem mem_faceEdgeValues {fe : FaceEdges} {E : Nat} :
    E ∈ faceEdgeValues fe ↔ ∃ t ∈ sidesList, fe.get t = E := by
  constructor
  · intro h
    simp only [faceEdgeValues, List.mem_cons, List.not_mem_nil, or_false] at h
    rcases h with rfl | rfl | rfl | rfl
    · exact ⟨"s", by simp [sidesList], rfl⟩
    · exact ⟨"e", by simp [sidesList], rfl⟩
    · exact ⟨"n", by simp [sidesList], rfl⟩
    · exact ⟨"w", by simp [sidesList], rfl⟩
  · rintro ⟨t, ht, rfl⟩
    simp only [sidesList, List.mem_cons, List.not_mem_nil, or_false] at ht
    rcases ht with rfl | rfl | rfl | rfl <;> simp [faceEdgeValues, FaceEdges.get]

theorem mem_edgeOccurrences {fes : List FaceEdges} {E : Nat} {b : Nat} {sd : String} :
    (b, sd) ∈ edgeOccurrences fes E ↔
      b < fes.length ∧ sd ∈ sidesList ∧ (fes.getD b default).get sd = E := by
  simp only [edgeOccurrences, List.mem_flatMap, List.mem_filterMap, List.mem_range]
  constructor
  · rintro ⟨a, ha, t, ht, hif⟩
    split at hif
    · rename_i hfe
      injection hif with hif
      rw [Prod.mk.injEq] at hif
      obtain ⟨rfl, rfl⟩ := hif
      exact ⟨ha, ht, hfe⟩
    · exact absurd hif (by simp)
  · rintro ⟨hb, hsd, hfe⟩
    exact ⟨b, hb, sd, hsd, by rw [if_pos hfe]⟩

theorem mem_of_length_le_two {α : Type} {l : List α} {x y z : α}
    (h2 : l.length ≤ 2) (hx : x ∈ l) (hy : y ∈ l) (hxy : x ≠ y) (hz : z ∈ l) :
    z = x ∨ z = y := by
  match l with
  | [] => exact absurd hx (by simp)
  | [a] =>
    simp only [List.mem_cons, List.not_mem_nil, or_false] at hx hy hz
    subst hx hy
    exact absurd rfl hxy
  | [a, b] =>
    simp only [List.mem_cons, List.not_mem_nil, or_false] at hx hy hz
    rcases hz with rfl | rfl <;> rcases hx with rfl | rfl <;> rcases hy with rfl | rfl <;>
      simp_all
  | a :: b :: c :: rest => simp at h2

theorem lookup_findInterfaces_isSome_iff (fes : List FaceEdges) (b : Nat) (sd : String)
    (hb : b < fes.length) (hsd : sd ∈ sidesList) :
    (lookupKey ((findInterfaces fes).getD b []) sd).isSome = true ↔
      ∃ p, p < fes.length ∧ p ≠ b ∧ ∃ t ∈ sidesList,
        (fes.getD p default).get t = (fes.getD b default).get sd := by
  rw [lookup_findInterfaces]
  constructor
  · intro h
    cases hlw : lastWrite (events fes) b sd with
    | none =>
      rw [hlw] at h
      exact absurd h (by simp)
    | some v =>
      obtain ⟨ev, hev, hw⟩ := exists_of_lastWrite_eq_some hlw
      obtain ⟨hij, hjn, hs1, hs2, hmatch⟩ := mem_events.1 hev
      unfold writesTo at hw
      split_ifs at hw with h1 h2
      · obtain ⟨hjb, hs2d⟩ := h1
        refine ⟨ev.i, by omega, by omega, ev.s1, hs1, ?_⟩
        rw [hmatch, hjb, hs2d]
      · obtain ⟨hib, hs1d⟩ := h2
        refine ⟨ev.j, hjn, by omega, ev.s2, hs2, ?_⟩
        rw [← hmatch, hib, hs1d]
  · rintro ⟨p, hp, hpb, t, ht, hmatch⟩
    rcases Nat.lt_or_ge b p with hbp | hpge
    · have hev : (⟨b, sd, p, t⟩ : Event) ∈ events fes :=
        mem_events.2 ⟨hbp, hp, hsd, ht, hmatch.symm⟩
      have hw : writesTo ⟨b, sd, p, t⟩ b sd = some (p, t) := by
        unfold writesTo
        rw [if_neg (fun hc => hpb hc.1), if_pos ⟨rfl, rfl⟩]
      exact lastWrite_isSome_of_mem hev hw
    · have hpb2 : p < b := by omega
      have hev : (⟨p, t, b, sd⟩ : Event) ∈ events fes :=
        mem_events.2 ⟨hpb2, hb, ht, hsd, hmatch⟩
      have hw : writesTo ⟨p, t, b, sd⟩ b sd = some (p, t) := by
        unfold writesTo
        rw [if_pos ⟨rfl, rfl⟩]
      exact lastWrite_isSome_of_mem hev hw

theorem getD_map_range {α : Type} (f : Nat → α) (n b : Nat) (d : α) (hb : b < n) :
    ((List.range n).map f).getD b d = f b := by
  rw [List.getD_eq_getElem?_getD, List.getElem?_map, List.getElem?_range hb]
  rfl

theorem mem_findNonInterfaces_iff (fes : List FaceEdges) (b : Nat) (sd : String)
    (hb : b < fes.length) :
    sd ∈ (findNonInterfaces fes).getD b [] ↔
      sd ∈ sidesList ∧
        ¬∃ p, p < fes.length ∧ p ≠ b ∧ ∃ t ∈ sidesList,
          (fes.getD p default).get t = (fes.getD b default).get sd := by
  unfold findNonInterfaces
  rw [getD_map_range _ _ _ _ hb, List.mem_filter]
  simp only [decide_eq_true_eq]
  refine and_congr Iff.rfl (not_congr ?_)
  simp only [List.mem_flatMap, List.mem_filter, List.mem_range, decide_eq_true_eq]
  constructor
  · rintro ⟨p, ⟨hp, hpb⟩, hmem⟩
    obtain ⟨t, ht, hfe⟩ := mem_faceEdgeValues.1 hmem
    exact ⟨p, hp, hpb, t, ht, hfe⟩
  · rintro ⟨p, hp, hpb, t, ht, hfe⟩
    exact ⟨p, ⟨hp, hpb⟩, mem_faceEdgeValues.2 ⟨t, ht, hfe⟩⟩

theorem symm_from_facts (fes : List FaceEdges)
    (hvalid : ∀ E, (edgeOccurrences fes E).length ≤ 2) (i : Nat) (s1 : String)
    (j : Nat) (s2 : String) (hin : i < fes.length) (hjn : j < fes.length)
    (hne : i ≠ j) (hs1 : s1 ∈ sidesList) (hs2 : s2 ∈ sidesList)
    (hE : (fes.getD i default).get s1 = (fes.getD j default).get s2)
    (ev₀ : Event) (hev₀ : ev₀ ∈ events fes)
    (hwj : writesTo ev₀ j s2 = some (i, s1)) :
    lastWrite (events fes) j s2 = some (i, s1) := by
  refine lastWrite_eq_of_all hev₀ hwj ?_
  intro ev hev u hw
  obtain ⟨hije, hjne2, hs1e, hs2e, hmatche⟩ := mem_events.1 hev
  have hiOcc : (i, s1) ∈ edgeOccurrences fes ((fes.getD i default).get s1) :=
    mem_edgeOccurrences.2 ⟨hin, hs1, rfl⟩
  have hjOcc : (j, s2) ∈ edgeOccurrences fes ((fes.getD i default).get s1) :=
    mem_edgeOccurrences.2 ⟨hjn, hs2, hE.symm⟩
  have hpairNe : (i, s1) ≠ (j, s2) := fun heq => hne (congrArg Prod.fst heq)
  unfold writesTo at hw
  split_ifs at hw with g1 g2
  · obtain ⟨gj, gs⟩ := g1
    injection hw with hw'
    subst hw'
    have hocc : (ev.i, ev.s1) ∈ edgeOccurrences fes ((fes.getD i default).get s1) := by
      refine mem_edgeOccurrences.2 ⟨by omega, hs1e, ?_⟩
      rw [hmatche, gj, gs]
      exact hE.symm
    have hneq : (ev.i, ev.s1) ≠ (j, s2) := by
      have hne2 : ev.i ≠ j := by omega
      exact fun heq => hne2 (congrArg Prod.fst heq)
    rcases mem_of_length_le_two (hvalid _) hiOcc hjOcc hpairNe hocc with h' | h'
    · exact h'
    · exact absurd h' hneq
  · obtain ⟨gi, gs⟩ := g2
    injection hw with hw'
    subst hw'
    have hocc : (ev.j, ev.s2) ∈ edgeOccurrences fes ((fes.getD i default).get s1) := by
      refine mem_edgeOccurrences.2 ⟨hjne2, hs2e, ?_⟩
      rw [← hmatche, gi, gs]
      exact hE.symm
    have hneq : (ev.j, ev.s2) ≠ (j, s2) := by
      have hne2 : ev.j ≠ j := by omega
      exact fun heq => hne2 (congrArg Prod.fst heq)
    rcases mem_of_length_le_two (hvalid _) hiOcc hjOcc hpairNe hocc with h' | h'
    · exact h'
    · exact absurd h' hneq

theorem findInterfaces_symm_core (fes : List FaceEdges)
    (hvalid : ∀ E, (edgeOccurrences fes E).length ≤ 2) {i j : Nat} {s1 s2 : String}
    (h : lookupKey ((findInterfaces fes).getD i []) s1 = some (j, s2)) :
    lookupKey ((findInterfaces fes).getD j []) s2 = some (i, s1) := by
  rw [lookup_findInterfaces] at h ⊢
  obtain ⟨ev₀, hev₀, hw₀⟩ := exists_of_lastWrite_eq_some h
  obtain ⟨a, t1, b2, t2⟩ := ev₀
  obtain ⟨hij₀, hjn₀, hs1₀, hs2₀, hmatch₀⟩ := mem_events.1 hev₀
  unfold writesTo at hw₀
  split_ifs at hw₀ with h1 h2
  · obtain ⟨rfl, rfl⟩ := h1
    injection hw₀ with hw₀'
    rw [Prod.mk.injEq] at hw₀'
    obtain ⟨rfl, rfl⟩ := hw₀'
    refine symm_from_facts fes hvalid _ _ _ _ hjn₀ (by omega) (by omega) hs2₀ hs1₀
      hmatch₀.symm _ hev₀ ?_
    unfold writesTo
    rw [if_neg (fun hc => (by omega : ¬b2 = a) hc.1), if_pos ⟨rfl, rfl⟩]
  · obtain ⟨rfl, rfl⟩ := h2
    injection hw₀ with hw₀'
    rw [Prod.mk.injEq] at hw₀'
    obtain ⟨rfl, rfl⟩ := hw₀'
    refine symm_from_facts fes hvalid _ _ _ _ (by omega) hjn₀ (by omega) hs1₀ hs2₀
      hmatch₀ _ hev₀ ?_
    unfold writesTo
    rw [if_pos ⟨rfl, rfl⟩]

theorem init_ok_eq {blocks : List Block} {mb : Multiblock}
    (h : Multiblock.init blocks = .ok mb) : mb = Multiblock.build blocks := by
  unfold Multiblock.init at h
  cases hcs : checkShapes blocks with
  | error e =>
    rw [hcs] at h
    exact absurd h (by simp)
  | ok u =>
    rw [hcs] at h
    injection h with h'
    exact h'.symm

theorem build_interfaces_eq (blocks : List Block) :
    (Multiblock.build blocks).interfaces =
      findInterfaces ((Multiblock.build blocks).faceEdges) := rfl

theorem build_nonInterfaces_eq (blocks : List Block) :
    (Multiblock.build blocks).nonInterfaces =
      findNonInterfaces ((Multiblock.build blocks).faceEdges) := rfl

theorem build_faceEdges_length (blocks : List Block) :
    (Multiblock.build blocks).faceEdges.length = blocks.length := by
  simp [Multiblock.build]

theorem build_numBlocks (blocks : List Block) :
    (Multiblock.build blocks).numBlocks = blocks.length := rfl

theorem valid_of_all_values (fes : List FaceEdges)
    (h : ∀ E ∈ fes.flatMap faceEdgeValues, (edgeOccurrences fes E).length ≤ 2) :
    ∀ E, (edgeOccurrences fes E).length ≤ 2 := by
  intro E
  by_cases hE : E ∈ fes.flatMap faceEdgeValues
  · exact h E hE
  · have hnil : edgeOccurrences fes E = [] := by
      rw [List.eq_nil_iff_forall_not_mem]
      rintro ⟨b, sd⟩ hx
      obtain ⟨hb, hsd, hfe⟩ := mem_edgeOccurrences.1 hx
      apply hE
      rw [List.mem_flatMap]
      refine ⟨fes.getD b default, ?_, mem_faceEdgeValues.2 ⟨sd, hsd, hfe⟩⟩
      rw [List.getD_eq_getElem?_getD, List.getElem?_eq_getElem hb]
      exact List.getElem_mem _
    rw [hnil]
    simp

theorem checkShapes_error :
    ∀ blocks : List Block, (∃ b ∈ blocks, shape b.1 ≠ shape b.2) →
      checkShapes blocks = .error .shapeAssertion := by
  intro blocks
  induction blocks with
  | nil =>
    intro h
    exact absurd h (by simp)
  | cons blk rest ih =>
    intro h
    obtain ⟨X, Y⟩ := blk
    simp only [checkShapes]
    by_cases hXY : shape X = shape Y
    · rw [if_pos hXY]
      apply ih
      obtain ⟨b, hb, hne⟩ := h
      rcases List.mem_cons.1 hb with rfl | hb'
      · exact absurd hXY hne
      · exact ⟨b, hb', hne⟩
    · rw [if_neg hXY]

theorem single_block_classification (fes : List FaceEdges) (hlen : fes.length = 1) :
    findInterfaces fes = [[]] ∧ findNonInterfaces fes = [sidesList] := by
  obtain ⟨fe, rfl⟩ := List.length_eq_one.1 hlen
  exact ⟨rfl, rfl⟩

theorem mem_of_lookupKey_some {β : Type} {v : β} (k : String) :
    ∀ d : List (String × β), lookupKey d k = some v → (k, v) ∈ d := by
  intro d
  induction d with
  | nil =>
    intro h
    exact absurd h (by simp [lookupKey])
  | cons p rest ih =>
    obtain ⟨k₀, v₀⟩ := p
    intro h
    simp only [lookupKey] at h
    by_cases hk : k = k₀
    · rw [if_pos hk] at h
      injection h with h'
      subst hk h'
      exact List.mem_cons_self _ _
    · rw [if_neg hk] at h
      exact List.mem_cons_of_mem _ (ih h)

/-- C1: for every connectivity object and every registered interface
(block_idx, side) with partner (neighbor_idx, neighbor_side),
get_neighbor_boundary returns the 1D boundary array of F along
neighbor_side, reversed exactly when (neighbor_side, side) is in the flip
table and unreversed otherwise, where the boundary accessor convention is
West = first row, East = last row, South = first column, North = last
column. -/
theorem c1_flip_rule {α : Type} [Inhabited α] (mb : Multiblock) (F : List (List α))
    (blockIdx : Nat) (side : String) (neighborIdx : Nat) (neighborSide : String)
    (h : lookupKey (mb.interfaces.getD blockIdx []) side = some (neighborIdx, neighborSide)) :
    mb.getNeighborBoundary F blockIdx side =
      .ok (if (neighborSide, side) ∈ flipList
           then (getFunctionBoundary F neighborSide).reverse
           else getFunctionBoundary F neighborSide) ∧
    getFunctionBoundary F "w" = F.headD [] ∧
    getFunctionBoundary F "e" = F.getLastD [] ∧
    getFunctionBoundary F "s" = F.map (fun row => row.headD default) ∧
    getFunctionBoundary F "n" = F.map (fun row => row.getLastD default) := by
  refine ⟨?_, rfl, rfl, rfl, rfl⟩
  simp only [Multiblock.getNeighborBoundary, Multiblock.isInterface, h,
    Option.isSome_some, if_true]
  by_cases hf : (neighborSide, side) ∈ flipList
  · rw [if_pos hf, if_pos hf]
  · rw [if_neg hf, if_neg hf]

/-- Witness for C1 at the concrete two-block scenario: the east interface
of block0 has partner (1, w), and the fetched boundary is the west side of
the supplied grid function, unreversed. -/
theorem c1_flip_rule_witness :
    mbC2.getNeighborBoundary F1C2 0 "e" =
      .ok (if (("w" : String), ("e" : String)) ∈ flipList
           then (getFunctionBoundary F1C2 "w").reverse
           else getFunctionBoundary F1C2 "w") ∧
    getFunctionBoundary F1C2 "w" = F1C2.headD [] ∧
    getFunctionBoundary F1C2 "e" = F1C2.getLastD [] ∧
    getFunctionBoundary F1C2 "s" = F1C2.map (fun row => row.headD default) ∧
    getFunctionBoundary F1C2 "n" = F1C2.map (fun row => row.getLastD default) :=
  c1_flip_rule mbC2 F1C2 0 "e" 1 "w" (by decide)

/-- C2: in the concrete scenario of two 3-by-3 blocks on x in [0,1] and
x in [1,2] sharing the edge x = 1, construction succeeds, block0's east
side is an interface with partner (1, w), its south, north and west sides
are non-interfaces, and a boundary exchange from block1's west boundary
[10, 11, 12] arrives at block0's east side unchanged. -/
theorem c2_concrete_scenario :
    Multiblock.init blocksC2 = .ok mbC2 ∧
    mbC2.isInterface 0 "e" = true ∧
    lookupKey (mbC2.interfaces.getD 0 []) "e" = some (1, "w") ∧
    mbC2.isInterface 0 "s" = false ∧
    mbC2.isInterface 0 "n" = false ∧
    mbC2.isInterface 0 "w" = false ∧
    mbC2.nonInterfaces.getD 0 [] = ["s", "n", "w"] ∧
    (∀ F1 : List (List ℚ), getFunctionBoundary F1 "w" = [10, 11, 12] →
      mbC2.getNeighborBoundary F1 0 "e" = .ok [10, 11, 12]) := by
  refine ⟨rfl, by decide, by decide, by decide, by decide, by decide, by decide, ?_⟩
  intro F1 hF1
  have hlk : lookupKey (mbC2.interfaces.getD 0 []) "e" = some (1, "w") := by decide
  simp only [Multiblock.getNeighborBoundary, Multiblock.isInterface, hlk,
    Option.isSome_some, if_true]
  rw [if_neg (by decide : ¬((("w" : String), ("e" : String)) ∈ flipList)), hF1]

/-- Witness for C2's universally quantified exchange clause at a concrete
grid function on block1. -/
theorem c2_concrete_scenario_witness :
    mbC2.getNeighborBoundary F1C2 0 "e" = .ok [10, 11, 12] :=
  c2_concrete_scenario.2.2.2.2.2.2.2 F1C2 (by decide)

/-- C3: for every block list accepted by the constructor in which every
edge is claimed by at most two (block, side) occurrences, the interface
map is symmetric, and each side key occurs at most once per block dict, so
a side participates in at most one interface. -/
theorem c3_interface_symmetry (blocks : List Block) (mb : Multiblock)
    (hmb : Multiblock.init blocks = .ok mb)
    (hvalid : ∀ E, (edgeOccurrences mb.faceEdges E).length ≤ 2) :
    (∀ i j : Nat, ∀ s1 s2 : String,
        lookupKey (mb.interfaces.getD i []) s1 = some (j, s2) →
        lookupKey (mb.interfaces.getD j []) s2 = some (i, s1)) ∧
    (∀ d ∈ mb.interfaces, (d.map Prod.fst).Nodup) := by
  obtain rfl := init_ok_eq hmb
  rw [build_interfaces_eq]
  constructor
  · intro i j s1 s2 h
    exact findInterfaces_symm_core _ hvalid h
  · exact findInterfaces_keys_nodup _

/-- Witness for C3 at the concrete two-block scenario, whose edges are
each claimed at most twice. -/
theorem c3_interface_symmetry_witness :
    (∀ i j : Nat, ∀ s1 s2 : String,
        lookupKey (mbC2.interfaces.getD i []) s1 = some (j, s2) →
        lookupKey (mbC2.interfaces.getD j []) s2 = some (i, s1)) ∧
    (∀ d ∈ mbC2.interfaces, (d.map Prod.fst).Nodup) :=
  c3_interface_symmetry blocksC2 mbC2 rfl
    (valid_of_all_values mbC2.faceEdges (by decide))

/-- C4: for every block list accepted by the constructor, every block
index, and every side label, the side is classified as exactly one of
interface or non-interface: it is a key of the block's interface dict if
and only if it is not a member of the block's non-interface list. -/
theorem c4_side_classification (blocks : List Block) (mb : Multiblock)
    (hmb : Multiblock.init blocks = .ok mb) (b : Nat) (hb : b < mb.numBlocks)
    (sd : String) (hsd : sd ∈ sidesList) :
    ((lookupKey (mb.interfaces.getD b []) sd).isSome = true ↔
      sd ∉ mb.nonInterfaces.getD b []) := by
  obtain rfl := init_ok_eq hmb
  rw [build_numBlocks] at hb
  have hb' : b < (Multiblock.build blocks).faceEdges.length := by
    rw [build_faceEdges_length]
    exact hb
  rw [build_interfaces_eq, build_nonInterfaces_eq,
    lookup_findInterfaces_isSome_iff _ _ _ hb' hsd,
    mem_findNonInterfaces_iff _ _ _ hb']
  constructor
  · intro hex hc
    exact hc.2 hex
  · intro hc
    by_contra hnex
    exact hc ⟨hsd, hnex⟩

/-- Witness for C4 at the concrete two-block scenario, block 0, side e. -/
theorem c4_side_classification_witness :
    ((lookupKey (mbC2.interfaces.getD 0 []) "e").isSome = true ↔
      "e" ∉ mbC2.nonInterfaces.getD 0 []) :=
  c4_side_classification blocksC2 mbC2 rfl 0 (by decide) "e" (by decide)

/-- C5: on the non-manifold input in which three blocks claim the edge
x = 1, the source raises no error at all: construction succeeds, and the
later matches have silently overwritten earlier interface entries, leaving
an asymmetric map in which block0's east side points at (2, w) while
block2's west side points at (1, w). -/
theorem c5_nonmanifold_accepted :
    Multiblock.init blocksC5 = .ok mbC5 ∧
    lookupKey (mbC5.interfaces.getD 0 []) "e" = some (2, "w") ∧
    lookupKey (mbC5.interfaces.getD 2 []) "w" = some (1, "w") ∧
    lookupKey (mbC5.interfaces.getD 1 []) "w" = some (2, "w") :=
  ⟨rfl, by decide, by decide, by decide⟩

/-- C6: for every connectivity object, grid function, block index and
side, if the (block_idx, side) pair is not a registered interface then
get_neighbor_boundary fails with the interface assertion (the failure the
spec names InvalidInterfaceError), before any neighbor lookup and with no
fallback result. -/
theorem c6_invalid_interface_error {α : Type} [Inhabited α] (mb : Multiblock)
    (F : List (List α)) (blockIdx : Nat) (side : String)
    (h : mb.isInterface blockIdx side = false) :
    mb.getNeighborBoundary F blockIdx side = .error .interfaceAssertion := by
  simp [Multiblock.getNeighborBoundary, h]

/-- Witness for C6 at the wrapped single block, whose east side is not an
interface. -/
theorem c6_invalid_interface_error_witness :
    mbC8.getNeighborBoundary ([[1, 2], [3, 4]] : List (List ℚ)) 0 "e" =
      .error .interfaceAssertion :=
  c6_invalid_interface_error mbC8 ([[1, 2], [3, 4]] : List (List ℚ)) 0 "e" (by decide)

/-- C7 counterexample: two inputs whose offending blocks are at the
distinct indices 0 and 1 produce identical errors, so the error raised by
construction does not name the index of the offending block; the source's
bare shape assert carries no block index. -/
theorem c7_error_names_no_index :
    firstMismatch blocksC7a = some 0 ∧
    firstMismatch blocksC7b = some 1 ∧
    Multiblock.init blocksC7a = .error .shapeAssertion ∧
    Multiblock.init blocksC7b = .error .shapeAssertion ∧
    Multiblock.init blocksC7a = Multiblock.init blocksC7b :=
  ⟨by decide, by decide, rfl, rfl, rfl⟩

/-- C7 amended: for every block list containing a block whose two
coordinate arrays differ in shape, construction fails immediately with the
shape assertion error, before any connectivity state is built; the error
does not identify the offending block index. -/
theorem c7_shape_mismatch_error (blocks : List Block)
    (h : ∃ b ∈ blocks, shape b.1 ≠ shape b.2) :
    Multiblock.init blocks = .error .shapeAssertion := by
  unfold Multiblock.init
  rw [checkShapes_error blocks h]

/-- Witness for the amended C7 at a concrete mismatched block list. -/
theorem c7_shape_mismatch_error_witness :
    Multiblock.init blocksC7a = .error .shapeAssertion :=
  c7_shape_mismatch_error blocksC7a ⟨([[0]], [[0], [0]]), by decide, by decide⟩

/-- C8: for every block list made of a single block two of whose sides
have coincident canonical edges (as in a periodically wrapped grid), the
classifier records no interface at all and classifies both of those sides
as non-interfaces, with no error, because a side's edge is compared only
against the sides of other blocks. -/
theorem c8_self_adjacency_misclassified (X Y : Mat) (sd1 sd2 : String)
    (h1 : sd1 ∈ sidesList) (h2 : sd2 ∈ sidesList) (hsh : shape X = shape Y)
    (_hcoin : ((Multiblock.build [(X, Y)]).faceEdges.getD 0 default).get sd1 =
             ((Multiblock.build [(X, Y)]).faceEdges.getD 0 default).get sd2) :
    Multiblock.init [(X, Y)] = .ok (Multiblock.build [(X, Y)]) ∧
    (Multiblock.build [(X, Y)]).interfaces = [[]] ∧
    sd1 ∈ (Multiblock.build [(X, Y)]).nonInterfaces.getD 0 [] ∧
    sd2 ∈ (Multiblock.build [(X, Y)]).nonInterfaces.getD 0 [] := by
  have hlen : (Multiblock.build [(X, Y)]).faceEdges.length = 1 := by
    rw [build_faceEdges_length]
    rfl
  obtain ⟨hifc, hnifc⟩ := single_block_classification _ hlen
  refine ⟨?_, ?_, ?_, ?_⟩
  · unfold Multiblock.init
    have hcs : checkShapes [(X, Y)] = .ok () := by
      simp [checkShapes, hsh]
    rw [hcs]
  · rw [build_interfaces_eq, hifc]
  · rw [build_nonInterfaces_eq, hnifc]
    simpa using h1
  · rw [build_nonInterfaces_eq, hnifc]
    simpa using h2

/-- Witness for C8 at the concrete wrapped block whose east and west
canonical edges coincide. -/
theorem c8_self_adjacency_misclassified_witness :
    Multiblock.init blocksC8 = .ok (Multiblock.build blocksC8) ∧
    (Multiblock.build blocksC8).interfaces = [[]] ∧
    "e" ∈ (Multiblock.build blocksC8).nonInterfaces.getD 0 [] ∧
    "w" ∈ (Multiblock.build blocksC8).nonInterfaces.getD 0 [] :=
  c8_self_adjacency_misclassified [[0, 0], [0, 0]] [[0, 1], [0, 1]] "e" "w"
    (by decide) (by decide) (by decide) (by decide)

/-- C9: the flip-rule reorientation is an involution: reorienting a 1D
boundary array twice with the same (neighbor_side, side) key returns the
original array. -/
theorem c9_reorient_involution {α : Type} (neighborSide side : String) (arr : List α) :
    reorient neighborSide side (reorient neighborSide side arr) = arr := by
  unfold reorient
  by_cases h : (neighborSide, side) ∈ flipList
  · rw [if_pos h, if_pos h, List.reverse_reverse]
  · rw [if_neg h, if_neg h]

/-- C10: for every constructed connectivity object, block index and side
value, is_interface is a total boolean membership test: it returns false
whenever the side is not a key of the block's interface dict, and in
particular for every string outside the four side labels, performing no
validation of the side string. -/
theorem c10_is_interface_total (blocks : List Block) (mb : Multiblock)
    (hmb : Multiblock.init blocks = .ok mb) (blockIdx : Nat) (side : String) :
    (lookupKey (mb.interfaces.getD blockIdx []) side = none →
      mb.isInterface blockIdx side = false) ∧
    (side ∉ sidesList → mb.isInterface blockIdx side = false) := by
  obtain rfl := init_ok_eq hmb
  constructor
  · intro h
    unfold Multiblock.isInterface
    rw [h]
    rfl
  · intro hside
    unfold Multiblock.isInterface
    cases hlk : lookupKey ((Multiblock.build blocks).interfaces.getD blockIdx []) side with
    | none => simp
    | some v =>
      exfalso
      apply hside
      have hmem := mem_of_lookupKey_some side _ hlk
      rcases getD_nil_mem_or_eq ((Multiblock.build blocks).interfaces) blockIdx with hd | hd
      · rw [build_interfaces_eq] at hd
        exact findInterfaces_keys_sides _ _ hd (side, v) hmem
      · rw [hd] at hmem
        exact absurd hmem (by simp)

/-- Witness for C10 at the concrete two-block scenario with the side
string x, which is not one of the four side labels. -/
theorem c10_is_interface_total_witness :
    mbC2.isInterface 0 "x" = false :=
  (c10_is_interface_total blocksC2 mbC2 rfl 0 "x").2 (by decide)

end Grid2d
